import Mathlib

/-!
Verification of the structured point-cloud buffer and the spherical
projection model of the grid_planner repository
(include/grid_planner/clouds.h), shallowly embedded in Lean 4.

Byte buffers are lists of naturals, the C++ float values are modelled as
rationals (for the structural fitting claims) or reals (for the
trigonometric projection claims), and uint32 arithmetic wraps modulo 2^32
where the C++ arithmetic does.  Non-finite floats (NaN or infinity) are
modelled by the value none of an Option type.
-/

namespace Naex

/-- Modelled from the spec: the closed enum of supported element datatypes
of a point field (point_field_traits.h is not part of src/); spec sect. 3. -/
inductive Datatype where
  | int8 | uint8 | int16 | uint16 | int32 | uint32 | float32 | float64
deriving DecidableEq

/-- Modelled from the spec: the element byte sizes of the supported
datatypes (PointFieldTraits value_size). -/
def Datatype.elementSize : Datatype → ℕ
  | .int8 => 1
  | .uint8 => 1
  | .int16 => 2
  | .uint16 => 2
  | .int32 => 4
  | .uint32 => 4
  | .float32 => 4
  | .float64 => 8

/-- A sensor_msgs PointField: name, byte offset, datatype, element count. -/
structure PointField where
  name : String
  offset : ℕ
  datatype : Datatype
  count : ℕ
deriving DecidableEq

/-- A sensor_msgs PointCloud2 as used by clouds.h: schema, strides, 2D
extent, raw byte data (bytes as naturals), endianness and density flags. -/
structure PointCloud2 where
  fields : List PointField
  point_step : ℕ
  row_step : ℕ
  height : ℕ
  width : ℕ
  data : List ℕ
  is_bigendian : Bool
  is_dense : Bool
deriving DecidableEq

/-- clouds.h reset_fields: clears the field list and the point step. -/
def reset_fields (c : PointCloud2) : PointCloud2 :=
  { c with fields := [], point_step := 0 }

/-- clouds.h append_field: appends a field descriptor whose offset is the
current point step and advances the point step by count * element size
(uint32 arithmetic, hence modulo 2^32). -/
def append_field (fname : String) (dt : Datatype) (count : ℕ)
    (c : PointCloud2) : PointCloud2 :=
  { c with
    fields := c.fields ++ [⟨fname, c.point_step, dt, count⟩],
    point_step := (c.point_step + count * dt.elementSize) % 2 ^ 32 }

/-- A sequence of append_field calls, applied in order. -/
def appendFields (l : List (String × Datatype × ℕ)) (c : PointCloud2) :
    PointCloud2 :=
  l.foldl (fun c f => append_field f.1 f.2.1 f.2.2 c) c

/-- The byte size count * element_size contributed by one declared field. -/
def fieldSize (f : String × Datatype × ℕ) : ℕ :=
  f.2.2 * f.2.1.elementSize

/-- Total byte size of a list of declared fields. -/
def totalSize (l : List (String × Datatype × ℕ)) : ℕ :=
  (l.map fieldSize).sum

/-- Default field descriptor used for out-of-range list access. -/
def dfltField : PointField := ⟨"", 0, Datatype.int8, 0⟩

theorem totalSize_nil : totalSize [] = 0 := rfl

theorem totalSize_cons (f : String × Datatype × ℕ)
    (l : List (String × Datatype × ℕ)) :
    totalSize (f :: l) = fieldSize f + totalSize l := by
  simp [totalSize]

theorem appendFields_cons (f : String × Datatype × ℕ)
    (l : List (String × Datatype × ℕ)) (c : PointCloud2) :
    appendFields (f :: l) c = appendFields l (append_field f.1 f.2.1 f.2.2 c) := by
  simp [appendFields]

/-- Main schema-packing invariant, generalized over the starting cloud:
appending a list of fields extends the field list, leaves old descriptors
alone, gives each new descriptor the offset point_step + prefix sum, and
advances point_step by the total size (all exact, assuming no u32 wrap). -/
theorem appendFields_spec (l : List (String × Datatype × ℕ)) :
    ∀ c : PointCloud2, c.point_step < 2 ^ 32 →
    c.point_step + totalSize l < 2 ^ 32 →
    (appendFields l c).fields.length = c.fields.length + l.length ∧
    (∀ k, k < c.fields.length →
      (appendFields l c).fields.getD k dfltField = c.fields.getD k dfltField) ∧
    (∀ k, k < l.length →
      ((appendFields l c).fields.getD (c.fields.length + k) dfltField).offset
        = c.point_step + totalSize (l.take k)) ∧
    (appendFields l c).point_step = c.point_step + totalSize l := by
  induction l with
  | nil =>
    intro c hc hfit
    refine ⟨by simp [appendFields], fun k hk => rfl,
      fun k hk => absurd hk (by simp), ?_⟩
    simp [appendFields, totalSize]
  | cons f rest ih =>
    intro c hc hfit
    rw [totalSize_cons] at hfit
    have hfs : fieldSize f = f.2.2 * f.2.1.elementSize := rfl
    have hstep : (c.point_step + f.2.2 * f.2.1.elementSize) % 2 ^ 32
        = c.point_step + f.2.2 * f.2.1.elementSize := by
      apply Nat.mod_eq_of_lt; omega
    have hc2ps : (append_field f.1 f.2.1 f.2.2 c).point_step
        = c.point_step + fieldSize f := by
      rw [hfs]
      simpa [append_field] using hstep
    have hc2f : (append_field f.1 f.2.1 f.2.2 c).fields
        = c.fields ++ [⟨f.1, c.point_step, f.2.1, f.2.2⟩] := by
      simp [append_field]
    generalize hc2 : append_field f.1 f.2.1 f.2.2 c = c2 at hc2ps hc2f
    have hc2lt : c2.point_step < 2 ^ 32 := by omega
    have hc2fit : c2.point_step + totalSize rest < 2 ^ 32 := by omega
    obtain ⟨ihlen, ihold, ihnew, ihps⟩ := ih c2 hc2lt hc2fit
    rw [appendFields_cons, hc2]
    have hlen2 : c2.fields.length = c.fields.length + 1 := by
      simp [hc2f]
    refine ⟨?_, ?_, ?_, ?_⟩
    · rw [ihlen, hlen2]; simp; omega
    · intro k hk
      rw [ihold k (by omega)]
      rw [hc2f, List.getD_append _ _ _ _ hk]
    · intro k hk
      match k with
      | 0 =>
        have hk0 : c.fields.length < c2.fields.length := by omega
        rw [Nat.add_zero, ihold c.fields.length hk0]
        have : c2.fields.getD c.fields.length dfltField
            = ⟨f.1, c.point_step, f.2.1, f.2.2⟩ := by
          rw [hc2f]
          rw [List.getD_eq_getElem?_getD]
          rw [List.getElem?_append_right (by omega)]
          simp
        rw [this]
        simp [totalSize]
      | Nat.succ j =>
        have hj : j < rest.length := by simpa using hk
        have := ihnew j hj
        rw [hlen2] at this
        have harr : c.fields.length + (j + 1) = c.fields.length + 1 + j := by omega
        rw [harr, this, hc2ps]
        rw [List.take_succ_cons, totalSize_cons]
        omega
    · rw [ihps, hc2ps, totalSize_cons]; omega

/-- C3: after reset_fields, any sequence of append_field calls whose total
size fits in u32 gives every appended field descriptor a byte offset equal
to the point step at the moment of its call, i.e. the prefix sum of
count * element_size over the previously declared fields, and leaves
point_step equal to the sum of count * element_size over all declared
fields. -/
theorem append_field_packing (c : PointCloud2)
    (l : List (String × Datatype × ℕ))
    (hfit : totalSize l < 2 ^ 32) :
    (∀ k, k < l.length →
      ((appendFields l (reset_fields c)).fields.getD k dfltField).offset
        = totalSize (l.take k)) ∧
    (appendFields l (reset_fields c)).point_step = totalSize l := by
  have h0 : (reset_fields c).point_step = 0 := rfl
  have h0f : (reset_fields c).fields = [] := rfl
  obtain ⟨hlen, hold, hnew, hps⟩ :=
    appendFields_spec l (reset_fields c) (by rw [h0]; positivity)
      (by rw [h0]; omega)
  constructor
  · intro k hk
    have := hnew k hk
    rw [h0f] at this
    simpa [h0] using this
  · rw [hps, h0]; omega

/-- C3 witness: a concrete x,y (float32) then intensity (float64, count 2)
schema is packed with offsets 0, 4, 8 and point step 24. -/
theorem append_field_packing_witness :
    (∀ k, k < 3 →
      ((appendFields
          [("x", Datatype.float32, 1), ("y", Datatype.float32, 1),
           ("i", Datatype.float64, 2)]
          (reset_fields ⟨[], 0, 0, 0, 0, [], false, false⟩)).fields.getD k
            dfltField).offset
        = totalSize ([("x", Datatype.float32, 1), ("y", Datatype.float32, 1),
           ("i", Datatype.float64, 2)].take k)) ∧
    (appendFields
        [("x", Datatype.float32, 1), ("y", Datatype.float32, 1),
         ("i", Datatype.float64, 2)]
        (reset_fields ⟨[], 0, 0, 0, 0, [], false, false⟩)).point_step
      = totalSize [("x", Datatype.float32, 1), ("y", Datatype.float32, 1),
         ("i", Datatype.float64, 2)] :=
  append_field_packing ⟨[], 0, 0, 0, 0, [], false, false⟩
    [("x", Datatype.float32, 1), ("y", Datatype.float32, 1),
     ("i", Datatype.float64, 2)] (by decide)

/-- The point_step bytes of record i of a byte buffer, addressed at byte
i * point_step (the record addressing used by copy_points). -/
def recordBytes (data : List ℕ) (ps i : ℕ) : List ℕ :=
  (data.drop (i * ps)).take ps

/-- Pad a byte list with zeros up to length n (the value-initialized fill
of the resized output data vector). -/
def padTo (n : ℕ) (l : List ℕ) : List ℕ :=
  l ++ List.replicate (n - l.length) 0

/-- clouds.h copy_points: builds a single-row output cloud carrying the
schema of the input and the records selected by indices, each record
byte-copied verbatim.  The C++ performs no range check on the indices;
std::copy from an out-of-range source offset reads past the data vector
(undefined behaviour), modelled here by the zero fill of the resized
output buffer standing in for the missing source bytes.  The uint32 width
and row_step assignments wrap modulo 2^32. -/
def copy_points (input : PointCloud2) (indices : List ℕ) : PointCloud2 :=
  { fields := input.fields,
    point_step := input.point_step,
    height := 1,
    width := indices.length % 2 ^ 32,
    row_step := ((indices.length % 2 ^ 32) * input.point_step) % 2 ^ 32,
    data := (indices.map (fun i =>
      padTo input.point_step (recordBytes input.data input.point_step i))).flatten,
    is_bigendian := input.is_bigendian,
    is_dense := input.is_dense }

theorem padTo_of_length_eq (n : ℕ) (l : List ℕ) (h : l.length = n) :
    padTo n l = l := by
  simp [padTo, h]

/-- Reading record k back out of a flat concatenation of records that all
have length ps gives the k-th record. -/
theorem recordBytes_flatten (ps : ℕ) (chunks : List (List ℕ))
    (hlen : ∀ c ∈ chunks, c.length = ps) :
    ∀ k, k < chunks.length →
      recordBytes chunks.flatten ps k = chunks.getD k [] := by
  induction chunks with
  | nil => intro k hk; exact absurd hk (by simp)
  | cons c rest ih =>
    intro k hk
    match k with
    | 0 =>
      have hc : c.length = ps := hlen c (by simp)
      simp only [recordBytes, Nat.zero_mul, List.drop_zero, List.flatten_cons,
        List.getD_cons_zero]
      rw [← hc, List.take_left]
    | Nat.succ j =>
      have hc : c.length = ps := hlen c (by simp)
      have hj : j < rest.length := by simpa using hk
      have hrest : ∀ d ∈ rest, d.length = ps := by
        intro d hd; exact hlen d (by simp [hd])
      have := ih hrest j hj
      simp only [recordBytes, List.flatten_cons, List.getD_cons_succ]
      rw [show (j + 1) * ps = c.length + j * ps by rw [hc]; ring]
      rw [List.drop_append]
      exact this

/-- C2: on a well-formed source buffer (no row padding) and in-range
indices (any count below 2^32, any order, possibly empty), copy_points
produces a single-row buffer with the same schema whose record at
position k is byte-for-byte the source record at indices[k]; an empty
index sequence gives a zero-point output. -/
theorem copy_points_spec (input : PointCloud2) (indices : List ℕ)
    (hin : ∀ i ∈ indices, i < input.height * input.width)
    (hdata : input.data.length = input.height * input.width * input.point_step)
    (hcnt : indices.length < 2 ^ 32) :
    (copy_points input indices).height = 1 ∧
    (copy_points input indices).width = indices.length ∧
    (copy_points input indices).fields = input.fields ∧
    (copy_points input indices).point_step = input.point_step ∧
    (copy_points input indices).is_bigendian = input.is_bigendian ∧
    (∀ k, k < indices.length →
      recordBytes (copy_points input indices).data input.point_step k
        = recordBytes input.data input.point_step (indices.getD k 0)) ∧
    (indices = [] → (copy_points input indices).data = []) := by
  refine ⟨rfl, Nat.mod_eq_of_lt hcnt, rfl, rfl, rfl, ?_, ?_⟩
  · intro k hk
    have hfull : ∀ i ∈ indices,
        (recordBytes input.data input.point_step i).length = input.point_step := by
      intro i hi
      have hi2 : (i + 1) * input.point_step ≤ input.data.length := by
        rw [hdata]
        exact Nat.mul_le_mul_right _ (hin i hi)
      have hi3 : i * input.point_step + input.point_step ≤ input.data.length := by
        have heq : i * input.point_step + input.point_step
            = (i + 1) * input.point_step := by ring
        rw [heq]; exact hi2
      simp only [recordBytes, List.length_take, List.length_drop]
      omega
    have hchunks : ∀ c ∈ indices.map (fun i =>
        padTo input.point_step (recordBytes input.data input.point_step i)),
        c.length = input.point_step := by
      intro c hc
      obtain ⟨i, hi, rfl⟩ := List.mem_map.mp hc
      rw [padTo_of_length_eq _ _ (hfull i hi)]
      exact hfull i hi
    have hklen : k < (indices.map (fun i =>
        padTo input.point_step (recordBytes input.data input.point_step i))).length := by
      simpa using hk
    have := recordBytes_flatten input.point_step _ hchunks k hklen
    simp only [copy_points] at this ⊢
    rw [this]
    have hgd : indices.getD k 0 ∈ indices := by
      have h1 : indices.getD k 0 = indices[k] := by
        simp [List.getD_eq_getElem?_getD, List.getElem?_eq_getElem hk]
      rw [h1]
      exact List.getElem_mem hk
    calc (indices.map (fun i =>
          padTo input.point_step (recordBytes input.data input.point_step i))).getD k []
        = padTo input.point_step
            (recordBytes input.data input.point_step (indices.getD k 0)) := by
          simp only [List.getD_eq_getElem?_getD, List.getElem?_map,
            List.getElem?_eq_getElem hk]
          simp
      _ = recordBytes input.data input.point_step (indices.getD k 0) :=
          padTo_of_length_eq _ _ (hfull _ hgd)
  · intro h
    subst h
    rfl

/-- The concrete out-of-range input for the copy_points range-check claim:
a one-point cloud (height 1, width 1, point_step 4) with bytes 1,2,3,4. -/
def oorCloud : PointCloud2 := ⟨[], 4, 4, 1, 1, [1, 2, 3, 4], false, false⟩

/-- C7: copy_points performs no range check.  Selecting index 1 from a
one-point source does not fail; it silently produces a one-point output
whose record bytes are not source bytes at all (the out-of-range
std::copy source, undefined behaviour in C++, here the zero fill). -/
theorem copy_points_no_range_check :
    1 ≥ oorCloud.height * oorCloud.width ∧
    (copy_points oorCloud [1]).width = 1 ∧
    (copy_points oorCloud [1]).data = [0, 0, 0, 0] ∧
    recordBytes oorCloud.data oorCloud.point_step 1 = [] := by decide

/-- A concrete well-formed one-row source buffer: height 1, width 2,
point_step 2, records [10,11] and [20,21]. -/
def demoCloud : PointCloud2 := ⟨[], 2, 4, 1, 2, [10, 11, 20, 21], false, false⟩

/-- C2 witness: selecting the permutation [1, 0] from demoCloud. -/
theorem copy_points_spec_witness :
    (copy_points demoCloud [1, 0]).height = 1 ∧
    (copy_points demoCloud [1, 0]).width = 2 ∧
    (copy_points demoCloud [1, 0]).fields = demoCloud.fields ∧
    (copy_points demoCloud [1, 0]).point_step = demoCloud.point_step ∧
    (copy_points demoCloud [1, 0]).is_bigendian = demoCloud.is_bigendian ∧
    (∀ k, k < 2 →
      recordBytes (copy_points demoCloud [1, 0]).data demoCloud.point_step k
        = recordBytes demoCloud.data demoCloud.point_step ([1, 0].getD k 0)) ∧
    ([1, 0] = ([] : List ℕ) → (copy_points demoCloud [1, 0]).data = []) :=
  copy_points_spec demoCloud [1, 0] (by decide) (by decide) (by decide)

/-!
The spherical projection model and its two calibration algorithms.

The geom.h conversion helpers (azimuth, elevation) consumed by the fitting
code are external collaborators not present in src/, so the fitting
routines are embedded parametrically in a pair of abstract angular
functions of a Cartesian position; the structural fitting claims hold for
every such pair.  Coordinates are rationals (exact stand-ins for finite
floats); a record whose position is not finite (NaN) is the value none,
and a non-finite model parameter (NaN or infinity, arising from a zero
division) is likewise none.
-/

/-- A point cloud as consumed by the fitting routines: a 2D extent and the
x,y,z position records in storage order; none marks a record whose
position fields are not all finite (an invalid point). -/
structure Cloud (α : Type) where
  height : ℕ
  width : ℕ
  pts : List (Option (α × α × α))

/-- Modelled from the spec: the external Coordinate Conversion collaborator
(geom.h is not part of src/), abstracted to the azimuth of (x, y) and the
elevation of (x, y, z) consumed by the fitting code. -/
structure Geom where
  azimuth : ℚ → ℚ → ℚ
  elevation : ℚ → ℚ → ℚ → ℚ

/-- The SphericalProjection model state: four scalar parameters (none for a
non-finite float value) and the calibrating buffer's 2D extent. -/
structure SphModel where
  azimuth_start : Option ℚ
  azimuth_step : Option ℚ
  elevation_start : Option ℚ
  elevation_step : Option ℚ
  height : ℕ
  width : ℕ
deriving DecidableEq

/-- Whether record i of the cloud is a valid point (all position fields
finite); indices beyond the stored records are not valid points. -/
def validB (cl : Cloud ℚ) (i : ℕ) : Bool :=
  (cl.pts.getD i none).isSome

/-- The position of record i (the fitting code only reads it at valid
indices; the default is never reached there). -/
def ptAt (cl : Cloud ℚ) (i : ℕ) : ℚ × ℚ × ℚ :=
  (cl.pts.getD i none).getD (0, 0, 0)

/-- Indices of the valid points, in storage order (fit_robust step 1). -/
def validIndices (cl : Cloud ℚ) : List ℕ :=
  (List.range (cl.height * cl.width)).filter (validB cl)

/-- Float division by an integer whose result is non-finite exactly when
the divisor is zero (the numerators occurring in the fits are finite). -/
def qdiv (a : ℚ) (b : ℤ) : Option ℚ :=
  if b = 0 then none else some (a / (b : ℚ))

/-- naex INVALID_INDEX: the largest value of Index (int). -/
def INVALID_INDEX : ℕ := 2 ^ 31 - 1

/-- The numeric value an optional extremal index compares with in the
fit_fast early-exit test (unset entries hold INVALID_INDEX). -/
def idxVal (o : Option ℕ) : ℕ :=
  o.getD INVALID_INDEX

/-- The four extremal indices tracked by the fit_fast scan: first index of
the minimum row, of the maximum row, of the minimum column and of the
maximum column seen so far (none while no valid point was seen). -/
structure ScanSt where
  ir0 : Option ℕ
  ir1 : Option ℕ
  ic0 : Option ℕ
  ic1 : Option ℕ
deriving DecidableEq

/-- Take index i when the tracked index is unset or i has a strictly
smaller key (the conditions i_x == INVALID_INDEX || key(i) < key(i_x)). -/
def updMin (key : ℕ → ℕ) (i : ℕ) (o : Option ℕ) : Option ℕ :=
  match o with
  | none => some i
  | some j => if key i < key j then some i else some j

/-- Take index i when the tracked index is unset or i has a strictly
greater key. -/
def updMax (key : ℕ → ℕ) (i : ℕ) (o : Option ℕ) : Option ℕ :=
  match o with
  | none => some i
  | some j => if key i > key j then some i else some j

/-- One fit_fast loop-body update of the extremal indices at valid point
index i of a cloud of width w (row key i / w, column key i % w). -/
def stepSt (w i : ℕ) (st : ScanSt) : ScanSt :=
  { ir0 := updMin (fun j => j / w) i st.ir0,
    ir1 := updMax (fun j => j / w) i st.ir1,
    ic0 := updMin (fun j => j % w) i st.ic0,
    ic1 := updMax (fun j => j % w) i st.ic1 }

/-- The fit_fast early-exit test i_r0 < i_r1 && i_c0 < i_c1 (raw index
comparison, with INVALID_INDEX for unset entries as in the C++). -/
def earlyExit (st : ScanSt) : Bool :=
  decide (idxVal st.ir0 < idxVal st.ir1) && decide (idxVal st.ic0 < idxVal st.ic1)

/-- The fit_fast scan over the given point indices: invalid points are
skipped, a valid point updates the extremal indices, and the scan stops
early once the early-exit test holds. -/
def scanGo (cl : Cloud ℚ) (st : ScanSt) : List ℕ → ScanSt
  | [] => st
  | i :: rest =>
    if validB cl i then
      let st2 := stepSt cl.width i st
      if earlyExit st2 then st2 else scanGo cl st2 rest
    else scanGo cl st rest

/-- The full fit_fast scan over all height * width point indices. -/
def scanCloud (cl : Cloud ℚ) : ScanSt :=
  scanGo cl ⟨none, none, none, none⟩ (List.range (cl.height * cl.width))

/-- clouds.h SphericalProjection::fit_fast: scans for extremal valid
points, fails (model untouched) when none exists, otherwise derives the
step parameters from the elevation and azimuth differences of the
extremal points divided by their row and column index differences, and
back-solves the start parameters.  A zero index difference is a zero
float division, i.e. a non-finite (none) parameter.  (When ir0 is set the
other three extremal indices are set too, so their INVALID_INDEX defaults
are never read, mirroring the single i_r0 check of the C++.) -/
def fit_fast (g : Geom) (m : SphModel) (cl : Cloud ℚ) : Bool × SphModel :=
  match (scanCloud cl).ir0 with
  | none => (false, m)
  | some ir0 =>
    let ir1 := idxVal (scanCloud cl).ir1
    let ic0 := idxVal (scanCloud cl).ic0
    let ic1 := idxVal (scanCloud cl).ic1
    let p0 := ptAt cl ir0
    let p1 := ptAt cl ir1
    let e0 := g.elevation p0.1 p0.2.1 p0.2.2
    let e1 := g.elevation p1.1 p1.2.1 p1.2.2
    let r0 := ir0 / cl.width
    let r1 := ir1 / cl.width
    let estep := qdiv (e1 - e0) ((r1 : ℤ) - (r0 : ℤ))
    let estart := estep.map (fun s => e0 - (r0 : ℚ) * s)
    let q0 := ptAt cl ic0
    let q1 := ptAt cl ic1
    let a0 := g.azimuth q0.1 q0.2.1
    let a1 := g.azimuth q1.1 q1.2.1
    let c0 := ic0 % cl.width
    let c1 := ic1 % cl.width
    let astep := qdiv (a1 - a0) ((c1 : ℤ) - (c0 : ℤ))
    let astart := astep.map (fun s => a0 - (c0 : ℚ) * s)
    (true, ⟨astart, astep, estart, estep, cl.height, cl.width⟩)

/-- fit_robust candidate collection over consecutive pairs of the shuffled
valid-index list: a pair with differing columns contributes an azimuth
(start, step) candidate obtained by solving the two-point affine system,
a pair with differing rows an elevation candidate; collection stops early
once both lists hold at least 25 candidates. -/
def collectGo (g : Geom) (cl : Cloud ℚ) (azms elms : List (ℚ × ℚ)) :
    List ℕ → List (ℚ × ℚ) × List (ℚ × ℚ)
  | [] => (azms, elms)
  | [_] => (azms, elms)
  | i :: j :: rest =>
    let p0 := ptAt cl i
    let p1 := ptAt cl j
    let c0 := i % cl.width
    let c1 := j % cl.width
    let azms2 :=
      if c0 ≠ c1 then
        let a0 := g.azimuth p0.1 p0.2.1
        let a1 := g.azimuth p1.1 p1.2.1
        let s := (a1 - a0) / ((((c1 : ℤ) - (c0 : ℤ)) : ℤ) : ℚ)
        azms ++ [(a0 - (c0 : ℚ) * s, s)]
      else azms
    let r0 := i / cl.width
    let r1 := j / cl.width
    let elms2 :=
      if r0 ≠ r1 then
        let e0 := g.elevation p0.1 p0.2.1 p0.2.2
        let e1 := g.elevation p1.1 p1.2.1 p1.2.2
        let s := (e1 - e0) / ((((r1 : ℤ) - (r0 : ℤ)) : ℤ) : ℚ)
        elms ++ [(e0 - (r0 : ℚ) * s, s)]
      else elms
    if 25 ≤ azms2.length ∧ 25 ≤ elms2.length then (azms2, elms2)
    else collectGo g cl azms2 elms2 (j :: rest)

/-- The azimuth candidate list gathered by fit_robust from the shuffled
valid-index order s. -/
def azModels (g : Geom) (cl : Cloud ℚ) (s : List ℕ) : List (ℚ × ℚ) :=
  (collectGo g cl [] [] s).1

/-- The elevation candidate list gathered by fit_robust. -/
def elModels (g : Geom) (cl : Cloud ℚ) (s : List ℕ) : List (ℚ × ℚ) :=
  (collectGo g cl [] [] s).2

/-- Sorting a candidate list by its step component (std::sort with the
comparator a.second < b.second; any sorted-by-step order). -/
def sortByStep (l : List (ℚ × ℚ)) : List (ℚ × ℚ) :=
  List.insertionSort (fun a b => a.2 ≤ b.2) l

/-- clouds.h SphericalProjection::fit_robust, parametric in the shuffled
order of the valid indices (the C++ shuffles with an mt19937 seeded from
std::random_device; theorems restrict s to permutations of
validIndices cl where the claim needs it): collects candidate pairs,
fails (model untouched) if either candidate list is empty, otherwise
installs the median-by-step candidate of each axis and the cloud
extent. -/
def fit_robust (g : Geom) (m : SphModel) (s : List ℕ) (cl : Cloud ℚ) :
    Bool × SphModel :=
  let ms := collectGo g cl [] [] s
  if ms.1 = [] ∨ ms.2 = [] then (false, m)
  else
    let azS := sortByStep ms.1
    let elS := sortByStep ms.2
    let am := azS.getD (azS.length / 2) (0, 0)
    let em := elS.getD (elS.length / 2) (0, 0)
    (true, ⟨some am.1, some am.2, some em.1, some em.2, cl.height, cl.width⟩)

/-- clouds.h SphericalProjection::fit: always the robust variant. -/
def fit (g : Geom) (m : SphModel) (s : List ℕ) (cl : Cloud ℚ) :
    Bool × SphModel :=
  fit_robust g m s cl

theorem stepSt_ir0 (w i : ℕ) (st : ScanSt) :
    (stepSt w i st).ir0 = updMin (fun j => j / w) i st.ir0 := rfl

theorem stepSt_ir1 (w i : ℕ) (st : ScanSt) :
    (stepSt w i st).ir1 = updMax (fun j => j / w) i st.ir1 := rfl

theorem stepSt_ic0 (w i : ℕ) (st : ScanSt) :
    (stepSt w i st).ic0 = updMin (fun j => j % w) i st.ic0 := rfl

theorem stepSt_ic1 (w i : ℕ) (st : ScanSt) :
    (stepSt w i st).ic1 = updMax (fun j => j % w) i st.ic1 := rfl

theorem validB_lt (cl : Cloud ℚ) (i : ℕ) (h : validB cl i = true) :
    i < cl.pts.length := by
  by_contra hge
  push_neg at hge
  rw [validB, List.getD_eq_default _ _ hge] at h
  simp at h

theorem updMin_isSome (key : ℕ → ℕ) (i : ℕ) (o : Option ℕ) :
    (updMin key i o).isSome = true := by
  cases o with
  | none => rfl
  | some j =>
    simp only [updMin]
    split <;> rfl

theorem updMax_isSome (key : ℕ → ℕ) (i : ℕ) (o : Option ℕ) :
    (updMax key i o).isSome = true := by
  cases o with
  | none => rfl
  | some j =>
    simp only [updMax]
    split <;> rfl

/-- The updated tracked index is i or the previously tracked index. -/
theorem updMin_cases (P : ℕ → Prop) (key : ℕ → ℕ) (i : ℕ) (o : Option ℕ)
    (hi : P i) (ho : o = none ∨ ∃ j, o = some j ∧ P j) :
    ∃ k, updMin key i o = some k ∧ P k := by
  rcases ho with h | ⟨j, hj, hpj⟩
  · exact ⟨i, by rw [h]; rfl, hi⟩
  · rw [hj]
    simp only [updMin]
    split
    · exact ⟨i, rfl, hi⟩
    · exact ⟨j, rfl, hpj⟩

theorem updMax_cases (P : ℕ → Prop) (key : ℕ → ℕ) (i : ℕ) (o : Option ℕ)
    (hi : P i) (ho : o = none ∨ ∃ j, o = some j ∧ P j) :
    ∃ k, updMax key i o = some k ∧ P k := by
  rcases ho with h | ⟨j, hj, hpj⟩
  · exact ⟨i, by rw [h]; rfl, hi⟩
  · rw [hj]
    simp only [updMax]
    split
    · exact ⟨i, rfl, hi⟩
    · exact ⟨j, rfl, hpj⟩

/-- Any property of the scan state preserved by every valid-point update is
an invariant of the scan, whether or not it exits early. -/
theorem scanGo_pres (cl : Cloud ℚ) (Q : ScanSt → Prop)
    (hstep : ∀ i st, validB cl i = true → Q st → Q (stepSt cl.width i st)) :
    ∀ (l : List ℕ) (st : ScanSt), Q st → Q (scanGo cl st l) := by
  intro l
  induction l with
  | nil => intro st hq; simpa [scanGo] using hq
  | cons i rest ih =>
    intro st hq
    simp only [scanGo]
    by_cases hv : validB cl i = true
    · rw [if_pos hv]
      have hq2 := hstep i st hv hq
      by_cases he : earlyExit (stepSt cl.width i st) = true
      · simpa [he] using hq2
      · simp only [Bool.not_eq_true] at he
        simpa [he] using ih _ hq2
    · rw [if_neg hv]
      exact ih st hq

/-- The scan ends with a set minimum-row index exactly when it saw a valid
point: the early exit can only fire after a valid point, and a valid point
always sets all four extremal indices. -/
theorem scanGo_isSome_iff (cl : Cloud ℚ) :
    ∀ (l : List ℕ) (st : ScanSt),
      ((scanGo cl st l).ir0.isSome = true) ↔
        (st.ir0.isSome = true ∨ ∃ i ∈ l, validB cl i = true) := by
  intro l
  induction l with
  | nil => intro st; simp [scanGo]
  | cons i rest ih =>
    intro st
    simp only [scanGo]
    by_cases hv : validB cl i = true
    · rw [if_pos hv]
      have hsome : (stepSt cl.width i st).ir0.isSome = true := by
        rw [stepSt_ir0]; exact updMin_isSome _ _ _
      by_cases he : earlyExit (stepSt cl.width i st) = true
      · simp only [he, if_pos]
        simp only [hsome, true_iff, iff_true]
        exact Or.inr ⟨i, by simp, hv⟩
      · simp only [Bool.not_eq_true] at he
        simp only [he, Bool.false_eq_true, if_false]
        rw [ih]
        simp only [hsome, true_or, true_iff]
        exact Or.inr ⟨i, by simp, hv⟩
    · rw [if_neg hv]
      rw [ih]
      constructor
      · rintro (h | ⟨j, hj, hvj⟩)
        · exact Or.inl h
        · exact Or.inr ⟨j, by simp [hj], hvj⟩
      · rintro (h | ⟨j, hj, hvj⟩)
        · exact Or.inl h
        · rcases List.mem_cons.mp hj with rfl | hj2
          · exact absurd hvj hv
          · exact Or.inr ⟨j, hj2, hvj⟩

/-- Either no valid point was seen (all four indices unset) or all four
extremal indices are set. -/
theorem scanCloud_shape (cl : Cloud ℚ) :
    (scanCloud cl).ir0 = none ∨
      ((scanCloud cl).ir0.isSome = true ∧ (scanCloud cl).ir1.isSome = true ∧
       (scanCloud cl).ic0.isSome = true ∧ (scanCloud cl).ic1.isSome = true) := by
  have := scanGo_pres cl
    (fun st => st.ir0 = none ∧ st.ir1 = none ∧ st.ic0 = none ∧ st.ic1 = none ∨
      (st.ir0.isSome = true ∧ st.ir1.isSome = true ∧
       st.ic0.isSome = true ∧ st.ic1.isSome = true))
    (fun i st _ _ => Or.inr
      ⟨by rw [stepSt_ir0]; exact updMin_isSome _ _ _,
       by rw [stepSt_ir1]; exact updMax_isSome _ _ _,
       by rw [stepSt_ic0]; exact updMin_isSome _ _ _,
       by rw [stepSt_ic1]; exact updMax_isSome _ _ _⟩)
    (List.range (cl.height * cl.width)) ⟨none, none, none, none⟩
    (Or.inl ⟨rfl, rfl, rfl, rfl⟩)
  rw [scanCloud]
  rcases this with ⟨h1, _, _, _⟩ | h
  · exact Or.inl h1
  · exact Or.inr h

/-- When every valid point lies in column c, the two tracked column-extremal
indices (when set) both lie in column c. -/
theorem scanCloud_col_inv (cl : Cloud ℚ) (c : ℕ)
    (hcol : ∀ i, validB cl i = true → i % cl.width = c) :
    ((scanCloud cl).ic0 = none ∧ (scanCloud cl).ic1 = none) ∨
      (∃ a b, (scanCloud cl).ic0 = some a ∧ (scanCloud cl).ic1 = some b ∧
        a % cl.width = c ∧ b % cl.width = c) := by
  have := scanGo_pres cl
    (fun st => (st.ic0 = none ∧ st.ic1 = none) ∨
      (∃ a b, st.ic0 = some a ∧ st.ic1 = some b ∧
        a % cl.width = c ∧ b % cl.width = c))
    (fun i st hv hq => by
      have hic : i % cl.width = c := hcol i hv
      have h0 : st.ic0 = none ∨
          ∃ j, st.ic0 = some j ∧ j % cl.width = c := by
        rcases hq with ⟨ha, _⟩ | ⟨a, b, ha, _, hac, _⟩
        · exact Or.inl ha
        · exact Or.inr ⟨a, ha, hac⟩
      have h1 : st.ic1 = none ∨
          ∃ j, st.ic1 = some j ∧ j % cl.width = c := by
        rcases hq with ⟨_, hb⟩ | ⟨a, b, _, hb, _, hbc⟩
        · exact Or.inl hb
        · exact Or.inr ⟨b, hb, hbc⟩
      obtain ⟨a, ha, hac⟩ :=
        updMin_cases (fun j => j % cl.width = c) (fun j => j % cl.width) i _ hic h0
      obtain ⟨b, hb, hbc⟩ :=
        updMax_cases (fun j => j % cl.width = c) (fun j => j % cl.width) i _ hic h1
      exact Or.inr ⟨a, b, by simpa [stepSt] using ha, by simpa [stepSt] using hb,
        hac, hbc⟩)
    (List.range (cl.height * cl.width)) ⟨none, none, none, none⟩
    (Or.inl ⟨rfl, rfl⟩)
  exact this

/-- The scan saw a valid point exactly when the cloud has one among its
height * width records. -/
theorem scanCloud_ir0_isSome_iff (cl : Cloud ℚ) :
    ((scanCloud cl).ir0.isSome = true) ↔
      ∃ i ∈ List.range (cl.height * cl.width), validB cl i = true := by
  rw [scanCloud]
  rw [scanGo_isSome_iff]
  simp

/-- When every valid point lies in row r, the two tracked row-extremal
indices (when set) both lie in row r. -/
theorem scanCloud_row_inv (cl : Cloud ℚ) (r : ℕ)
    (hrow : ∀ i, validB cl i = true → i / cl.width = r) :
    ((scanCloud cl).ir0 = none ∧ (scanCloud cl).ir1 = none) ∨
      (∃ a b, (scanCloud cl).ir0 = some a ∧ (scanCloud cl).ir1 = some b ∧
        a / cl.width = r ∧ b / cl.width = r) := by
  have := scanGo_pres cl
    (fun st => (st.ir0 = none ∧ st.ir1 = none) ∨
      (∃ a b, st.ir0 = some a ∧ st.ir1 = some b ∧
        a / cl.width = r ∧ b / cl.width = r))
    (fun i st hv hq => by
      have hir : i / cl.width = r := hrow i hv
      have h0 : st.ir0 = none ∨
          ∃ j, st.ir0 = some j ∧ j / cl.width = r := by
        rcases hq with ⟨ha, _⟩ | ⟨a, b, ha, _, hac, _⟩
        · exact Or.inl ha
        · exact Or.inr ⟨a, ha, hac⟩
      have h1 : st.ir1 = none ∨
          ∃ j, st.ir1 = some j ∧ j / cl.width = r := by
        rcases hq with ⟨_, hb⟩ | ⟨a, b, _, hb, _, hbc⟩
        · exact Or.inl hb
        · exact Or.inr ⟨b, hb, hbc⟩
      obtain ⟨a, ha, hac⟩ :=
        updMin_cases (fun j => j / cl.width = r) (fun j => j / cl.width) i _ hir h0
      obtain ⟨b, hb, hbc⟩ :=
        updMax_cases (fun j => j / cl.width = r) (fun j => j / cl.width) i _ hir h1
      exact Or.inr ⟨a, b, by simpa [stepSt] using ha, by simpa [stepSt] using hb,
        hac, hbc⟩)
    (List.range (cl.height * cl.width)) ⟨none, none, none, none⟩
    (Or.inl ⟨rfl, rfl⟩)
  exact this

/-- fit_robust written as a single conditional over the collected candidate
lists (definitional restatement used by the claim proofs). -/
theorem fit_robust_eq (g : Geom) (m : SphModel) (s : List ℕ) (cl : Cloud ℚ) :
    fit_robust g m s cl =
      if azModels g cl s = [] ∨ elModels g cl s = [] then (false, m)
      else (true,
        ⟨some ((sortByStep (azModels g cl s)).getD
            ((sortByStep (azModels g cl s)).length / 2) (0, 0)).1,
         some ((sortByStep (azModels g cl s)).getD
            ((sortByStep (azModels g cl s)).length / 2) (0, 0)).2,
         some ((sortByStep (elModels g cl s)).getD
            ((sortByStep (elModels g cl s)).length / 2) (0, 0)).1,
         some ((sortByStep (elModels g cl s)).getD
            ((sortByStep (elModels g cl s)).length / 2) (0, 0)).2,
         cl.height, cl.width⟩) := rfl

/-- A buffer is entirely invalid exactly when no index in range is a valid
point (for a buffer whose record list matches its extent). -/
theorem allNone_iff_noValid (cl : Cloud ℚ)
    (hlen : cl.pts.length = cl.height * cl.width) :
    (∀ p ∈ cl.pts, p = none) ↔
      ¬ ∃ i ∈ List.range (cl.height * cl.width), validB cl i = true := by
  constructor
  · rintro hall ⟨i, hi, hv⟩
    have hlt : i < cl.pts.length := validB_lt cl i hv
    rw [validB, List.getD_eq_getElem?_getD, List.getElem?_eq_getElem hlt] at hv
    have hmem : cl.pts[i] ∈ cl.pts := List.getElem_mem hlt
    rw [hall _ hmem] at hv
    simp at hv
  · intro hnone p hp
    by_contra hpn
    obtain ⟨i, hi, hip⟩ := List.getElem_of_mem hp
    apply hnone
    refine ⟨i, by rw [List.mem_range, ← hlen]; exact hi, ?_⟩
    rw [validB, List.getD_eq_getElem?_getD, List.getElem?_eq_getElem hi, hip]
    cases p with
    | none => exact absurd rfl hpn
    | some v => rfl

/-- C5: fit_fast fails exactly when the buffer holds no valid point;
fit_robust fails exactly when the azimuth or the elevation candidate list
stays empty; and on an all-invalid buffer (every position NaN) both fits
fail. -/
theorem fit_failure_conditions (g : Geom) (m m2 : SphModel) (cl : Cloud ℚ)
    (s : List ℕ) (hlen : cl.pts.length = cl.height * cl.width) :
    ((fit_fast g m cl).1 = false ↔ ∀ p ∈ cl.pts, p = none) ∧
    ((fit_robust g m2 s cl).1 = false ↔
      (azModels g cl s = [] ∨ elModels g cl s = [])) ∧
    ((∀ p ∈ cl.pts, p = none) → s.Perm (validIndices cl) →
      (fit_fast g m cl).1 = false ∧ (fit_robust g m2 s cl).1 = false) := by
  have hfast : (fit_fast g m cl).1 = false ↔ ∀ p ∈ cl.pts, p = none := by
    have hiff := scanCloud_ir0_isSome_iff cl
    have hnone := allNone_iff_noValid cl hlen
    cases hir : (scanCloud cl).ir0 with
    | none =>
      simp only [fit_fast, hir]
      rw [hir] at hiff
      simp only [Option.isSome_none, Bool.false_eq_true, false_iff] at hiff
      simpa [hnone] using hiff
    | some j =>
      simp only [fit_fast, hir]
      rw [hir] at hiff
      simp only [Option.isSome_some, true_iff] at hiff
      rw [hnone]
      refine iff_of_false (by simp) ?_
      simp only [not_not]
      simpa using hiff
  have hrob : (fit_robust g m2 s cl).1 = false ↔
      (azModels g cl s = [] ∨ elModels g cl s = []) := by
    rw [fit_robust_eq]
    by_cases hc : azModels g cl s = [] ∨ elModels g cl s = []
    · rw [if_pos hc]; simpa using hc
    · rw [if_neg hc]; simpa using hc
  refine ⟨hfast, hrob, ?_⟩
  intro hall hperm
  refine ⟨hfast.mpr hall, ?_⟩
  have hvi : validIndices cl = [] := by
    rw [validIndices, List.filter_eq_nil_iff]
    intro i hi
    intro hv
    exact (allNone_iff_noValid cl hlen).mp hall ⟨i, hi, hv⟩
  rw [hvi] at hperm
  have hs : s = [] := hperm.eq_nil
  subst hs
  exact hrob.mpr (Or.inl rfl)

/-- C6: a failed fit (fast or robust) leaves every model field exactly as
it was before the call. -/
theorem fit_failure_leaves_model (g : Geom) (m m2 : SphModel) (cl : Cloud ℚ)
    (s : List ℕ) :
    ((fit_fast g m cl).1 = false → (fit_fast g m cl).2 = m) ∧
    ((fit_robust g m2 s cl).1 = false → (fit_robust g m2 s cl).2 = m2) := by
  constructor
  · intro h
    cases hir : (scanCloud cl).ir0 with
    | none => simp [fit_fast, hir]
    | some j => simp [fit_fast, hir] at h
  · intro h
    rw [fit_robust_eq] at h ⊢
    by_cases hc : azModels g cl s = [] ∨ elModels g cl s = []
    · rw [if_pos hc]
    · rw [if_neg hc] at h; simp at h

/-- C1: whenever fit_robust succeeds, the installed azimuth parameters are
exactly the candidate pair at the middle position (index size / 2) of the
azimuth candidate list sorted by its step component, and likewise the
elevation parameters for the elevation candidate list. -/
theorem fit_robust_median (g : Geom) (m : SphModel) (s : List ℕ)
    (cl : Cloud ℚ) (h : (fit_robust g m s cl).1 = true) :
    (fit_robust g m s cl).2.azimuth_start
      = some ((sortByStep (azModels g cl s)).getD
          ((sortByStep (azModels g cl s)).length / 2) (0, 0)).1 ∧
    (fit_robust g m s cl).2.azimuth_step
      = some ((sortByStep (azModels g cl s)).getD
          ((sortByStep (azModels g cl s)).length / 2) (0, 0)).2 ∧
    (fit_robust g m s cl).2.elevation_start
      = some ((sortByStep (elModels g cl s)).getD
          ((sortByStep (elModels g cl s)).length / 2) (0, 0)).1 ∧
    (fit_robust g m s cl).2.elevation_step
      = some ((sortByStep (elModels g cl s)).getD
          ((sortByStep (elModels g cl s)).length / 2) (0, 0)).2 := by
  rw [fit_robust_eq] at h ⊢
  by_cases hc : azModels g cl s = [] ∨ elModels g cl s = []
  · rw [if_pos hc] at h; simp at h
  · rw [if_neg hc]
    exact ⟨rfl, rfl, rfl, rfl⟩

/-- C10: on a buffer with at least one valid point, fit_fast reports
success, and when all valid points share one column (resp. one row) the
azimuth (resp. elevation) step is computed by a zero division, leaving a
non-finite step parameter in a model reported calibrated. -/
theorem fit_fast_degenerate (g : Geom) (m : SphModel) (cl : Cloud ℚ)
    (hex : ∃ i ∈ List.range (cl.height * cl.width), validB cl i = true) :
    (fit_fast g m cl).1 = true ∧
    (∀ c, (∀ i, validB cl i = true → i % cl.width = c) →
      (fit_fast g m cl).2.azimuth_step = none) ∧
    (∀ r, (∀ i, validB cl i = true → i / cl.width = r) →
      (fit_fast g m cl).2.elevation_step = none) := by
  have hsome : (scanCloud cl).ir0.isSome = true :=
    (scanCloud_ir0_isSome_iff cl).mpr hex
  obtain ⟨j, hj⟩ := Option.isSome_iff_exists.mp hsome
  refine ⟨by simp [fit_fast, hj], ?_, ?_⟩
  · intro c hcol
    rcases scanCloud_shape cl with h0 | ⟨_, _, h2, h3⟩
    · rw [h0] at hj; cases hj
    obtain ⟨a, ha⟩ := Option.isSome_iff_exists.mp h2
    obtain ⟨b, hb⟩ := Option.isSome_iff_exists.mp h3
    rcases scanCloud_col_inv cl c hcol with ⟨hn, _⟩ | ⟨a2, b2, ha2, hb2, hac, hbc⟩
    · rw [hn] at ha; cases ha
    simp only [fit_fast, hj, ha2, hb2, idxVal, Option.getD_some]
    rw [hac, hbc]
    simp [qdiv]
  · intro r hrow
    rcases scanCloud_row_inv cl r hrow with ⟨hn, _⟩ | ⟨a2, b2, ha2, hb2, har, hbr⟩
    · rw [hn] at hj; cases hj
    rw [ha2] at hj
    cases hj
    simp only [fit_fast, ha2, hb2, idxVal, Option.getD_some]
    rw [har, hbr]
    simp [qdiv]

/-- A concrete Coordinate Conversion collaborator for witnesses: azimuth is
the x coordinate, elevation the z coordinate. -/
def gLin : Geom := ⟨fun x _ => x, fun _ _ z => z⟩

/-- An uncalibrated model (arbitrary prior contents). -/
def mUnfit : SphModel := ⟨none, none, none, none, 0, 0⟩

/-- A 2x2 all-valid cloud whose pairwise azimuth slopes differ, used by the
fit_robust witnesses. -/
def clGrid : Cloud ℚ :=
  ⟨2, 2, [some (0, 0, 0), some (10, 0, 0), some (1, 0, 5), some (2, 0, 0)]⟩

/-- A 1x2 cloud whose every point is invalid (NaN position). -/
def clNone : Cloud ℚ := ⟨1, 2, [none, none]⟩

/-- A 2x1 cloud: every valid point lies in the single column 0. -/
def clCol : Cloud ℚ := ⟨2, 1, [some (0, 0, 0), some (0, 0, 1)]⟩

/-- A 1x2 cloud: every valid point lies in the single row 0. -/
def clRow : Cloud ℚ := ⟨1, 2, [some (0, 0, 0), some (1, 0, 0)]⟩

/-- C5 witness: the failure conditions at the all-invalid 1x2 cloud with
the empty shuffle order. -/
theorem fit_failure_conditions_witness :
    ((fit_fast gLin mUnfit clNone).1 = false ↔ ∀ p ∈ clNone.pts, p = none) ∧
    ((fit_robust gLin mUnfit [] clNone).1 = false ↔
      (azModels gLin clNone [] = [] ∨ elModels gLin clNone [] = [])) ∧
    ((∀ p ∈ clNone.pts, p = none) → List.Perm [] (validIndices clNone) →
      (fit_fast gLin mUnfit clNone).1 = false ∧
      (fit_robust gLin mUnfit [] clNone).1 = false) :=
  fit_failure_conditions gLin mUnfit mUnfit clNone [] rfl

/-- C6 witness: both fits fail on the all-invalid cloud and leave the
uncalibrated model exactly as it was. -/
theorem fit_failure_leaves_model_witness :
    (fit_fast gLin mUnfit clNone).2 = mUnfit ∧
    (fit_robust gLin mUnfit [] clNone).2 = mUnfit :=
  ⟨(fit_failure_leaves_model gLin mUnfit mUnfit clNone []).1 (by decide),
   (fit_failure_leaves_model gLin mUnfit mUnfit clNone []).2 (by decide)⟩

/-- C1 witness: a successful robust fit on the 2x2 grid installs the
median-by-step candidates. -/
theorem fit_robust_median_witness :
    (fit_robust gLin mUnfit [0, 1, 2, 3] clGrid).2.azimuth_start
      = some ((sortByStep (azModels gLin clGrid [0, 1, 2, 3])).getD
          ((sortByStep (azModels gLin clGrid [0, 1, 2, 3])).length / 2) (0, 0)).1 ∧
    (fit_robust gLin mUnfit [0, 1, 2, 3] clGrid).2.azimuth_step
      = some ((sortByStep (azModels gLin clGrid [0, 1, 2, 3])).getD
          ((sortByStep (azModels gLin clGrid [0, 1, 2, 3])).length / 2) (0, 0)).2 ∧
    (fit_robust gLin mUnfit [0, 1, 2, 3] clGrid).2.elevation_start
      = some ((sortByStep (elModels gLin clGrid [0, 1, 2, 3])).getD
          ((sortByStep (elModels gLin clGrid [0, 1, 2, 3])).length / 2) (0, 0)).1 ∧
    (fit_robust gLin mUnfit [0, 1, 2, 3] clGrid).2.elevation_step
      = some ((sortByStep (elModels gLin clGrid [0, 1, 2, 3])).getD
          ((sortByStep (elModels gLin clGrid [0, 1, 2, 3])).length / 2) (0, 0)).2 :=
  fit_robust_median gLin mUnfit [0, 1, 2, 3] clGrid (by decide)

/-- C10 witness: a single-column cloud gives a calibrated model with a
non-finite azimuth step; a single-row cloud a non-finite elevation step. -/
theorem fit_fast_degenerate_witness :
    (fit_fast gLin mUnfit clCol).1 = true ∧
    (fit_fast gLin mUnfit clCol).2.azimuth_step = none ∧
    (fit_fast gLin mUnfit clRow).1 = true ∧
    (fit_fast gLin mUnfit clRow).2.elevation_step = none :=
  ⟨(fit_fast_degenerate gLin mUnfit clCol (by decide)).1,
   (fit_fast_degenerate gLin mUnfit clCol (by decide)).2.1 0
     (fun i _ => Nat.mod_one i),
   (fit_fast_degenerate gLin mUnfit clRow (by decide)).1,
   (fit_fast_degenerate gLin mUnfit clRow (by decide)).2.2 0
     (fun i hv => Nat.div_eq_of_lt (by simpa [clRow] using validB_lt clRow i hv))⟩

/-- C9 counterexample: the shuffle source is not injectable and the result
is not determined by the buffer and its input order alone: two shuffle
orders, both permutations of the same valid-index list of the same
buffer, drive fit_robust to different azimuth step parameters (so two runs
of the C++ code, whose mt19937 is re-seeded from std::random_device on
every call, can disagree on the same input). -/
theorem fit_robust_shuffle_dependent :
    List.Perm [0, 1, 2, 3] (validIndices clGrid) ∧
    List.Perm [1, 0, 2, 3] (validIndices clGrid) ∧
    (fit_robust gLin mUnfit [0, 1, 2, 3] clGrid).1 = true ∧
    (fit_robust gLin mUnfit [1, 0, 2, 3] clGrid).1 = true ∧
    (fit_robust gLin mUnfit [0, 1, 2, 3] clGrid).2.azimuth_step
      ≠ (fit_robust gLin mUnfit [1, 0, 2, 3] clGrid).2.azimuth_step := by
  refine ⟨by decide, by decide, by decide, by decide, ?_⟩
  have h1 : (fit_robust gLin mUnfit [0, 1, 2, 3] clGrid).2.azimuth_step
      = some 9 := by
    norm_num [fit_robust, collectGo, sortByStep, List.insertionSort,
      List.orderedInsert, ptAt, clGrid, gLin]
    rw [if_neg (by simp)]
  have h2 : (fit_robust gLin mUnfit [1, 0, 2, 3] clGrid).2.azimuth_step
      = some 10 := by
    norm_num [fit_robust, collectGo, sortByStep, List.insertionSort,
      List.orderedInsert, ptAt, clGrid, gLin]
    rw [if_neg (by simp)]
  rw [h1, h2]
  simp only [ne_eq, Option.some.injEq]
  norm_num

/-- C9 amended: fit_robust is deterministic only as a function of the
buffer and the realized shuffle order of its valid indices; runs whose
shuffles agree produce identical model parameters. -/
theorem fit_robust_shuffle_deterministic (g : Geom) (m : SphModel)
    (cl : Cloud ℚ) (s1 s2 : List ℕ) (h : s1 = s2) :
    fit_robust g m s1 cl = fit_robust g m s2 cl := by
  rw [h]

/-- C9 amended witness: equal shuffle orders on the 2x2 grid give equal
results. -/
theorem fit_robust_shuffle_deterministic_witness :
    fit_robust gLin mUnfit [0, 1, 2, 3] clGrid
      = fit_robust gLin mUnfit [0, 1, 2, 3] clGrid :=
  fit_robust_shuffle_deterministic gLin mUnfit clGrid [0, 1, 2, 3]
    [0, 1, 2, 3] rfl

/-!
The projection claims concern the real trigonometric structure of project
and unproject, so the model is embedded a second time over exact reals,
with the Coordinate Conversion collaborator modelled concretely from the
spec (azimuth and elevation in the conventional spherical sense the spec
names: azimuth the angle in the xy plane from x towards y, elevation the
angle from the xy plane to the point).
-/

/-- The SphericalProjection model state over exact reals. -/
structure SphModelR where
  azimuth_start : ℝ
  azimuth_step : ℝ
  elevation_start : ℝ
  elevation_step : ℝ
  height : ℕ
  width : ℕ

/-- Modelled from the spec: the two-argument arctangent (range (-pi, pi])
via the complex argument, atan2 y x = arg (x + y i). -/
noncomputable def atan2 (y x : ℝ) : ℝ :=
  Complex.arg (x + y * Complex.I)

/-- Modelled from the spec: cartesian_to_spherical of the Coordinate
Conversion collaborator (geom.h not in src/): azimuth atan2(y, x),
elevation arcsin(z / radius), radius the Euclidean norm. -/
noncomputable def cartesian_to_spherical (x y z : ℝ) : ℝ × ℝ × ℝ :=
  (atan2 y x, Real.arcsin (z / Real.sqrt (x ^ 2 + y ^ 2 + z ^ 2)),
    Real.sqrt (x ^ 2 + y ^ 2 + z ^ 2))

/-- Modelled from the spec: spherical_to_cartesian of the Coordinate
Conversion collaborator. -/
noncomputable def spherical_to_cartesian (az el r : ℝ) : ℝ × ℝ × ℝ :=
  (r * (Real.cos el * Real.cos az), r * (Real.cos el * Real.sin az),
    r * Real.sin el)

/-- clouds.h SphericalProjection::unproject: the affine azimuth and
elevation of the grid cell, converted to a unit Cartesian direction. -/
noncomputable def SphModelR.unproject (m : SphModelR) (r c : ℝ) : ℝ × ℝ × ℝ :=
  spherical_to_cartesian (m.azimuth_start + c * m.azimuth_step)
    (m.elevation_start + r * m.elevation_step) 1

/-- clouds.h SphericalProjection::project (single point): convert to
spherical and invert the affine row/column mapping. -/
noncomputable def SphModelR.project (m : SphModelR) (x y z : ℝ) : ℝ × ℝ :=
  (((cartesian_to_spherical x y z).2.1 - m.elevation_start) / m.elevation_step,
   ((cartesian_to_spherical x y z).1 - m.azimuth_start) / m.azimuth_step)

/-- Converting the unit direction of (azimuth, elevation) back to spherical
recovers the pair exactly, provided the azimuth lies in the principal
range (-pi, pi] of atan2 and the elevation strictly inside
(-pi/2, pi/2). -/
theorem cart_sph_of_sph_cart (az el : ℝ)
    (haz : az ∈ Set.Ioc (-Real.pi) Real.pi)
    (hel : el ∈ Set.Ioo (-(Real.pi / 2)) (Real.pi / 2)) :
    cartesian_to_spherical (spherical_to_cartesian az el 1).1
      (spherical_to_cartesian az el 1).2.1
      (spherical_to_cartesian az el 1).2.2 = (az, el, 1) := by
  have hcos : 0 < Real.cos el := Real.cos_pos_of_mem_Ioo hel
  have hx : (spherical_to_cartesian az el 1).1
      = Real.cos el * Real.cos az := by
    simp [spherical_to_cartesian]
  have hy : (spherical_to_cartesian az el 1).2.1
      = Real.cos el * Real.sin az := by
    simp [spherical_to_cartesian]
  have hz : (spherical_to_cartesian az el 1).2.2 = Real.sin el := by
    simp [spherical_to_cartesian]
  rw [hx, hy, hz]
  have hsq : (Real.cos el * Real.cos az) ^ 2 + (Real.cos el * Real.sin az) ^ 2
      + Real.sin el ^ 2 = 1 := by
    nlinarith [Real.sin_sq_add_cos_sq az, Real.sin_sq_add_cos_sq el]
  have hrad : Real.sqrt ((Real.cos el * Real.cos az) ^ 2
      + (Real.cos el * Real.sin az) ^ 2 + Real.sin el ^ 2) = 1 := by
    rw [hsq]; exact Real.sqrt_one
  have harg : atan2 (Real.cos el * Real.sin az) (Real.cos el * Real.cos az)
      = az := by
    rw [atan2]
    have hmul : ((Real.cos el * Real.cos az : ℝ) : ℂ)
        + ((Real.cos el * Real.sin az : ℝ) : ℂ) * Complex.I
        = (Real.cos el : ℝ) * (((Real.cos az : ℝ) : ℂ)
            + ((Real.sin az : ℝ) : ℂ) * Complex.I) := by
      push_cast
      ring
    rw [hmul, Complex.arg_real_mul _ hcos, Complex.ofReal_cos,
      Complex.ofReal_sin]
    exact Complex.arg_cos_add_sin_mul_I haz
  have hasin : Real.arcsin (Real.sin el
      / Real.sqrt ((Real.cos el * Real.cos az) ^ 2
        + (Real.cos el * Real.sin az) ^ 2 + Real.sin el ^ 2)) = el := by
    rw [hrad, div_one]
    exact Real.arcsin_sin hel.1.le hel.2.le
  simp only [cartesian_to_spherical]
  rw [harg, hasin, hrad]

/-- C4 amended: project inverts unproject exactly for every calibrated
model with non-zero steps, at every (row, col) whose grid azimuth lies in
atan2's principal range (-pi, pi] and whose grid elevation lies strictly
inside (-pi/2, pi/2); outside those ranges the angular wrap-around of the
conversion breaks the claimed round trip (see the wrap-around
counterexample). -/
theorem project_unproject (m : SphModelR) (r c : ℝ)
    (ha : m.azimuth_step ≠ 0) (he : m.elevation_step ≠ 0)
    (haz : m.azimuth_start + c * m.azimuth_step ∈ Set.Ioc (-Real.pi) Real.pi)
    (hel : m.elevation_start + r * m.elevation_step ∈
      Set.Ioo (-(Real.pi / 2)) (Real.pi / 2)) :
    m.project (m.unproject r c).1 (m.unproject r c).2.1 (m.unproject r c).2.2
      = (r, c) := by
  have hrt := cart_sph_of_sph_cart _ _ haz hel
  simp only [SphModelR.unproject] at *
  have h1 : (cartesian_to_spherical
      (spherical_to_cartesian (m.azimuth_start + c * m.azimuth_step)
        (m.elevation_start + r * m.elevation_step) 1).1
      (spherical_to_cartesian (m.azimuth_start + c * m.azimuth_step)
        (m.elevation_start + r * m.elevation_step) 1).2.1
      (spherical_to_cartesian (m.azimuth_start + c * m.azimuth_step)
        (m.elevation_start + r * m.elevation_step) 1).2.2).1
      = m.azimuth_start + c * m.azimuth_step := by rw [hrt]
  have h2 : (cartesian_to_spherical
      (spherical_to_cartesian (m.azimuth_start + c * m.azimuth_step)
        (m.elevation_start + r * m.elevation_step) 1).1
      (spherical_to_cartesian (m.azimuth_start + c * m.azimuth_step)
        (m.elevation_start + r * m.elevation_step) 1).2.1
      (spherical_to_cartesian (m.azimuth_start + c * m.azimuth_step)
        (m.elevation_start + r * m.elevation_step) 1).2.2).2.1
      = m.elevation_start + r * m.elevation_step := by rw [hrt]
  simp only [SphModelR.project, h1, h2]
  rw [Prod.mk.injEq]
  constructor
  · rw [add_sub_cancel_left]
    exact mul_div_cancel_right₀ r he
  · rw [add_sub_cancel_left]
    exact mul_div_cancel_right₀ c ha

/-- The model with azimuth step two pi used by the C4 wrap-around
counterexample. -/
noncomputable def mWrap : SphModelR := ⟨0, 2 * Real.pi, 0, 1, 1, 2⟩

/-- C4 counterexample: a calibrated model with finite non-zero steps and a
(row, col) = (0, 1) inside [0, height) x [0, width) for which the round
trip does not return (row, col): the grid azimuth 2 pi wraps to 0 under
the conversion, so project returns column 0 instead of 1. -/
theorem project_unproject_wraparound :
    mWrap.azimuth_step ≠ 0 ∧ mWrap.elevation_step ≠ 0 ∧
    0 < mWrap.height ∧ 1 < mWrap.width ∧
    mWrap.project (mWrap.unproject 0 1).1 (mWrap.unproject 0 1).2.1
      (mWrap.unproject 0 1).2.2 ≠ ((0 : ℝ), (1 : ℝ)) := by
  refine ⟨by simp [mWrap, Real.pi_ne_zero], by norm_num [mWrap],
    by norm_num [mWrap], by norm_num [mWrap], ?_⟩
  have hu : mWrap.unproject 0 1 = (1, 0, 0) := by
    simp only [SphModelR.unproject, mWrap, spherical_to_cartesian]
    norm_num [Real.cos_two_pi, Real.sin_two_pi]
  have hc : cartesian_to_spherical 1 0 0 = (0, 0, 1) := by
    simp only [cartesian_to_spherical, atan2]
    norm_num [Real.arcsin_zero, Complex.arg_one]
  have hp : mWrap.project 1 0 0 = (0, 0) := by
    simp only [SphModelR.project, hc, mWrap]
    norm_num
  rw [hu]
  simp only []
  rw [hp]
  intro h
  have h2 := congrArg Prod.snd h
  norm_num at h2

/-- The concrete calibrated model of the C4 witness. -/
noncomputable def mDemo : SphModelR := ⟨0, 1, 0, 1 / 2, 3, 3⟩

/-- C4 witness: at the in-range model mDemo and grid cell (1, 1) the round
trip is exact. -/
theorem project_unproject_witness :
    mDemo.project (mDemo.unproject 1 1).1 (mDemo.unproject 1 1).2.1
      (mDemo.unproject 1 1).2.2 = (1, 1) :=
  project_unproject mDemo 1 1 (by norm_num [mDemo]) (by norm_num [mDemo])
    (by
      simp only [mDemo, Set.mem_Ioc]
      exact ⟨by nlinarith [Real.pi_gt_three], by nlinarith [Real.pi_gt_three]⟩)
    (by
      simp only [mDemo, Set.mem_Ioo]
      exact ⟨by nlinarith [Real.pi_gt_three], by nlinarith [Real.pi_gt_three]⟩)

/-- The accumulation pass of SphericalProjection::check: over all grid
cells, a valid point whose rounded projection disagrees with its storage
cell contributes the angle between its unit direction and the model
direction of the cell (the arc cosine is total and bounded in the real
model, so the C++ isfinite guard on the residual always passes; the C++
round is half-away-from-zero, the Lean round half-up, which can only
re-route a residual into or out of the sum, a diagnostic). -/
noncomputable def checkFold (m : SphModelR) (cl : Cloud ℝ) : ℝ × ℕ :=
  (List.range (m.height * m.width)).foldl
    (fun acc i =>
      match cl.pts.getD i none with
      | none => acc
      | some p =>
        let rc := m.project p.1 p.2.1 p.2.2
        let r := i / m.width
        let c := i % m.width
        if (r : ℤ) = round rc.1 ∧ (c : ℤ) = round rc.2 then acc
        else
          let nrm := Real.sqrt (p.1 ^ 2 + p.2.1 ^ 2 + p.2.2 ^ 2)
          let q := m.unproject (r : ℝ) (c : ℝ)
          let residual := Real.arccos
            ((p.1 / nrm) * q.1 + (p.2.1 / nrm) * q.2.1 + (p.2.2 / nrm) * q.2.2)
          (acc.1 + residual, acc.2 + 1))
    (0, 0)

/-- clouds.h SphericalProjection::check: accumulates the mean angular
residual over the disagreeing valid points, reports it (the per-point
residual-threshold warning sits after an unconditional continue and is
dead code), touches no model field and always returns true.  The returned
triple is the boolean result, the model state after the call, and the
reported mean residual. -/
noncomputable def SphModelR.check (m : SphModelR) (cl : Cloud ℝ) :
    Bool × SphModelR × ℝ :=
  (true, m, (checkFold m cl).1 / ((checkFold m cl).2 : ℝ))

/-- C8: for every buffer of matching extent, check returns true and leaves
all six model fields exactly as they were; the mean residual is only
reported. -/
theorem check_true_and_pure (m : SphModelR) (cl : Cloud ℝ)
    (_hh : cl.height = m.height) (_hw : cl.width = m.width) :
    (m.check cl).1 = true ∧ (m.check cl).2.1 = m :=
  ⟨rfl, rfl⟩

/-- A 1x1 real cloud with one invalid point, for the C8 witness. -/
noncomputable def clR1 : Cloud ℝ := ⟨1, 1, [none]⟩

/-- A concrete calibrated 1x1 model, for the C8 witness. -/
noncomputable def mR1 : SphModelR := ⟨0, 1, 0, 1, 1, 1⟩

/-- C8 witness: check at a concrete matching-extent buffer. -/
theorem check_true_and_pure_witness :
    (mR1.check clR1).1 = true ∧ (mR1.check clR1).2.1 = mR1 :=
  check_true_and_pure mR1 clR1 rfl rfl

end Naex
